import Mathlib

/-!
Shallow embedding of the `kvlite` file-backed hash map (files `src/file.rs`
and `src/hashmap.rs`) and proofs about it.

Modelling conventions:
* Rust strings (`String` / `&str`) are modelled by their UTF-8 byte
  sequences, `List Nat` with every element `< 256`.  `String::from_utf8_lossy`
  is the identity on valid UTF-8, and every string stored by the engine
  originates from a Rust `String`, so decoding is modelled as the identity
  on the raw bytes.
* `u32` values are modelled as `Nat` with arithmetic taken modulo `2 ^ 32`
  exactly where the Rust code wraps; `mem::transmute` between `u32` and
  `[u8; 4]` on the x86-64 target is little-endian byte packing.
* The backing file is modelled as a decoded header plus the list of
  1284-byte records it contains (`FileState`); a byte position past the
  current end of file reads as zero bytes, i.e. as the empty record, which
  matches `File::read` on a short file combined with the zero-initialised
  buffer (the code ignores the byte count returned by `read`).
* Fallible `seek`/`read`/`write` calls consult explicit oracles so that the
  error paths of the code can be exercised; interleaved writers are
  modelled by an interference function applied between the unlocked chain
  read and the locked write-protocol call of each loop iteration.
-/

namespace Kvlite

/-- A raw byte (`u8`), modelled as `Nat`; meaningful values are `< 256`. -/
abbrev Byte := Nat

/-- `Error` from `src/lib.rs`: the two error kinds of the store. -/
inductive KvError where
  | io
  | notFound
deriving DecidableEq, Repr

/-- `ITEM_SIZE` from `src/file.rs`: the fixed record size in bytes. -/
def ITEM_SIZE : Nat := 1284

/-- `HEADER_SIZE` from `src/file.rs`: the fixed header size in bytes. -/
def HEADER_SIZE : Nat := 16

/-- `Item` from `src/file.rs`: a linked-list node holding a key-value pair
and the absolute slot index of the next node (`0` = none). -/
structure Item where
  key : List Byte
  value : List Byte
  next : Nat
deriving DecidableEq, Repr

namespace Item

/-- `Item::new` from `src/file.rs`. -/
def new (key value : List Byte) : Item :=
  ⟨key, value, 0⟩

/-- `Item::empty` from `src/file.rs`: the all-empty sentinel record. -/
def empty : Item :=
  ⟨[], [], 0⟩

/-- `Item::find_null_byte` from `src/file.rs`: index of the first zero
byte, or the length of the buffer when there is none. -/
def findNullByte : List Byte → Nat
  | [] => 0
  | b :: rest => if b = 0 then 0 else findNullByte rest + 1

/-- A fixed-width on-disk field: the first `n` bytes of `l`, zero-padded
to exactly `n` bytes.  This is what the `as_bytes` copy loop produces for
the key and value regions of the record buffer. -/
def pad (l : List Byte) (n : Nat) : List Byte :=
  l.take n ++ List.replicate (n - l.length) 0

/-- Little-endian `u32` byte packing (`mem::transmute::<u32, [u8; 4]>` on
the x86-64 target). -/
def u32Bytes (n : Nat) : List Byte :=
  [n % 256, n / 2 ^ 8 % 256, n / 2 ^ 16 % 256, n / 2 ^ 24 % 256]

/-- Little-endian `u32` byte unpacking (`mem::transmute::<[u8; 4], u32>`). -/
def bytesU32 (l : List Byte) : Nat :=
  l.getD 0 0 + 2 ^ 8 * l.getD 1 0 + 2 ^ 16 * l.getD 2 0 + 2 ^ 24 * l.getD 3 0

/-- `Item::as_bytes` from `src/file.rs`: a zero-filled 1284-byte buffer
with up to 256 key bytes at `[0,256)`, up to 1024 value bytes at
`[256,1280)` and the `next` field at `[1280,1284)`; excess key/value bytes
are silently dropped. -/
def asBytes (it : Item) : List Byte :=
  pad it.key 256 ++ pad it.value 1024 ++ u32Bytes it.next

/-- `Item::from` from `src/file.rs`: scan `[0,256)` for the first zero
byte to delimit the key, `[256,1280)` likewise for the value, and read
`[1280,1284)` as the `next` field. -/
def fromBytes (b : List Byte) : Item :=
  let keyLen := findNullByte (b.take 256)
  let valueLen := findNullByte ((b.drop 256).take 1024)
  { key := b.take keyLen
    value := (b.drop 256).take valueLen
    next := bytesU32 (b.drop 1280) }

/-- `Item::is_empty` from `src/file.rs`. -/
def isEmpty (it : Item) : Bool :=
  it.key = [] && it.value = [] && it.next = 0

/-- `Item::get_next` from `src/file.rs`: `none` exactly when `next = 0`. -/
def getNext (it : Item) : Option Nat :=
  if it.next = 0 then none else some it.next

/-- `Item::is_key` from `src/file.rs`. -/
def isKey (it : Item) (key : List Byte) : Bool :=
  it.key = key

/-- `Item::get_val` from `src/file.rs`. -/
def getVal (it : Item) : List Byte :=
  it.value

/-- `Item::with_next` from `src/file.rs`: replace the `next` field,
`none` becoming `0`. -/
def withNext (it : Item) (next : Option Nat) : Item :=
  { it with next := next.getD 0 }

end Item

/-- The UTF-8 bytes of `U+FFFD REPLACEMENT CHARACTER`, which
`String::from_utf8_lossy` substitutes for each invalid subsequence. -/
def repChar : List Byte := [239, 191, 189]

/-- A UTF-8 continuation byte: `0x80 ≤ c ≤ 0xBF`. -/
def isCont (c : Byte) : Bool :=
  128 ≤ c && c < 192

/-- Admissible second byte of a 3-byte UTF-8 sequence with lead `b`
(`core::str` validation): `0xE0` requires `0xA0..=0xBF` (no overlongs),
`0xED` requires `0x80..=0x9F` (no surrogates), the rest a plain
continuation byte. -/
def valid3Second (b c : Byte) : Bool :=
  if b = 224 then 160 ≤ c && c ≤ 191
  else if b = 237 then 128 ≤ c && c ≤ 159
  else isCont c

/-- Admissible second byte of a 4-byte UTF-8 sequence with lead `b`:
`0xF0` requires `0x90..=0xBF`, `0xF4` requires `0x80..=0x8F`
(code points ≤ `U+10FFFF`), the rest a plain continuation byte. -/
def valid4Second (b c : Byte) : Bool :=
  if b = 240 then 144 ≤ c && c ≤ 191
  else if b = 244 then 128 ≤ c && c ≤ 143
  else isCont c

/-- `String::from_utf8_lossy` at the byte level: valid UTF-8 sequences
are copied verbatim; each maximal invalid subsequence is replaced by one
`U+FFFD` following Rust's `run_utf8_validation` error lengths — an
ASCII byte passes; `0x80..=0xC1` and `0xF5..` are invalid on their own;
a multi-byte lead whose second byte is inadmissible is skipped alone;
a sequence broken at a later continuation byte is skipped up to the
break; a sequence truncated by the end of input yields one `U+FFFD`. -/
def utf8Lossy : List Byte → List Byte
  | [] => []
  | b :: rest =>
    if b < 128 then b :: utf8Lossy rest
    else if b < 194 then repChar ++ utf8Lossy rest
    else if b < 224 then
      match rest with
      | [] => repChar
      | c :: rest2 =>
        if isCont c then b :: c :: utf8Lossy rest2
        else repChar ++ utf8Lossy (c :: rest2)
    else if b < 240 then
      match rest with
      | [] => repChar
      | c :: rest2 =>
        if valid3Second b c then
          match rest2 with
          | [] => repChar
          | d :: rest3 =>
            if isCont d then b :: c :: d :: utf8Lossy rest3
            else repChar ++ utf8Lossy (d :: rest3)
        else repChar ++ utf8Lossy (c :: rest2)
    else if b < 245 then
      match rest with
      | [] => repChar
      | c :: rest2 =>
        if valid4Second b c then
          match rest2 with
          | [] => repChar
          | d :: rest3 =>
            if isCont d then
              match rest3 with
              | [] => repChar
              | e :: rest4 =>
                if isCont e then b :: c :: d :: e :: utf8Lossy rest4
                else repChar ++ utf8Lossy (e :: rest4)
            else repChar ++ utf8Lossy (d :: rest3)
        else repChar ++ utf8Lossy (c :: rest2)
    else repChar ++ utf8Lossy rest

/-- `Item::from` from `src/file.rs` in full: the raw field extraction
(`Item.fromBytes`) followed by `String::from_utf8_lossy` on the key and
value fields (file.rs:81-82).  On fields that are valid UTF-8 — in
particular all-ASCII fields, the only kind arising in the test
scenarios — the lossy step is the identity and `itemFrom` coincides
with `Item.fromBytes`. -/
def itemFrom (b : List Byte) : Item :=
  let raw := Item.fromBytes b
  ⟨utf8Lossy raw.key, utf8Lossy raw.value, raw.next⟩

/-- Writing a record to disk stores `item.as_bytes()`; a later read
decodes those bytes with `Item::from`.  `storeNorm` is that composite:
the record as it will be seen by every subsequent read. -/
def storeNorm (it : Item) : Item :=
  Item.fromBytes it.asBytes

/-- Addition of `u32` values (wrapping). -/
def add32 (x y : Nat) : Nat :=
  (x + y) % 2 ^ 32

/-- Left shift of a `u32` value by `k` bits (high bits discarded). -/
def shl32 (x k : Nat) : Nat :=
  x * 2 ^ k % 2 ^ 32

/-- Subtraction of `u32` values (wrapping); `x` and `y` are reduced
modulo `2 ^ 32` first, as the machine registers hold reduced values. -/
def sub32 (x y : Nat) : Nat :=
  (x % 2 ^ 32 + (2 ^ 32 - y % 2 ^ 32)) % 2 ^ 32

/-- One step of the accumulator loop of `FileHashMap::hash` from
`src/hashmap.rs`: `total = *b as u32 + (total << 6) + (total << 16) - total`
with every operation wrapping on `u32`. -/
def hashStep (total b : Nat) : Nat :=
  sub32 (add32 (add32 b (shl32 total 6)) (shl32 total 16)) total

/-- `FileHashMap::hash` from `src/hashmap.rs`: fold `hashStep` over the
key's bytes starting from `0`, then reduce modulo the bucket count. -/
def hash (s : List Byte) (keyCount : Nat) : Nat :=
  s.foldl hashStep 0 % keyCount

/-- Reference hash accumulator step written from the specification text:
`total = b + (total << 6) + (total << 16) − total`, all arithmetic modulo
`2 ^ 32`, i.e. one reduction of the exact integer value.  Stated over `Int`
and reduced with `emod` so that the subtraction is the spec's literal
subtraction. -/
def hashSpecStep (total b : Nat) : Nat :=
  (((b : Int) + total * 2 ^ 6 + total * 2 ^ 16 - total) % 2 ^ 32).toNat

/-- Reference hash function written from the specification text:
accumulate `hashSpecStep` over the key bytes from `0`; bucket is
`total mod key_count`. -/
def hashSpec (s : List Byte) (keyCount : Nat) : Nat :=
  s.foldl hashSpecStep 0 % keyCount

/-- `Header` from `src/file.rs`: the decoded 16-byte file prologue. -/
structure Header where
  version : Nat
  keyCount : Nat
  valSize : Nat
  heapSize : Nat
deriving DecidableEq, Repr

/-- The backing file: its header (bytes `[0,16)`) and the sequence of
1284-byte records stored after it, each held in decoded form.  Every
record on disk was produced by `as_bytes`, and `Item::from ∘ Item::as_bytes`
is idempotent, so storing decoded records loses nothing. -/
structure FileState where
  header : Header
  slots : List Item
deriving DecidableEq, Repr

/-- Size in bytes of the backing file: the 16-byte header followed by the
records (each exactly `ITEM_SIZE` bytes, as written by `as_bytes`). -/
def fileSize (s : FileState) : Nat :=
  HEADER_SIZE + ITEM_SIZE * s.slots.length

/-- `FileHashMap::read_item` from `src/hashmap.rs`, successful case: seek
to `16 + pos * 1284` and decode 1284 bytes.  Reading past the end of the
file leaves the zeroed buffer untouched, which decodes to the empty
record. -/
def readSlot (s : FileState) (pos : Nat) : Item :=
  s.slots.getD pos Item.empty

/-- Writing `ITEM_SIZE` bytes at file position `16 + pos * 1284`:
overwrite the record at `pos` if the file reaches it, otherwise extend
the file (a hole reads back as zero bytes, i.e. empty records). -/
def writeSlot (s : FileState) (pos : Nat) (it : Item) : FileState :=
  { s with
    slots :=
      if pos < s.slots.length then s.slots.set pos it
      else s.slots ++ List.replicate (pos - s.slots.length) Item.empty ++ [it] }

/-- `DEFAULT_KEY_COUNT` from `src/hashmap.rs`. -/
def DEFAULT_KEY_COUNT : Nat := 256

/-- `FileHashMap::init_file_once` from `src/hashmap.rs`, merged with the
file system state: if the file exists (`create_new` fails) keep it
unchanged, otherwise create it with a fresh header and `key_count` zeroed
records. -/
def initFileOnce (keyCount : Nat) (d : Option FileState) : FileState :=
  match d with
  | some s => s
  | none =>
      { header := { version := 0, keyCount := keyCount, valSize := ITEM_SIZE, heapSize := 0 }
        slots := List.replicate keyCount Item.empty }

/-- IO oracle for one `write_item` call: whether the verification
`read_item` (its seek + read), the pre-write `seek`, and the `write`
succeed.  `flock` failures panic in the source (`unwrap`) and are not
modelled. -/
structure WOracle where
  verifyReadOk : Bool
  seekOk : Bool
  writeOk : Bool
deriving DecidableEq, Repr

/-- The all-successful `write_item` oracle. -/
def WOracle.ok : WOracle :=
  ⟨true, true, true⟩

/-- IO oracle for one `write_new_item_to_heap` call, one flag per
fallible call in source order: header read, seek/write of the new heap
record, verification read of the predecessor, seek/write of the updated
predecessor, and the header write. -/
structure HOracle where
  headerReadOk : Bool
  seekNewOk : Bool
  writeNewOk : Bool
  verifyReadOk : Bool
  seekPrevOk : Bool
  writePrevOk : Bool
  headerWriteOk : Bool
deriving DecidableEq, Repr

/-- The all-successful `write_new_item_to_heap` oracle. -/
def HOracle.ok : HOracle :=
  ⟨true, true, true, true, true, true, true⟩

instance {ε α : Type} [DecidableEq ε] [DecidableEq α] : DecidableEq (Except ε α) := by
  intro x y
  cases x <;> cases y
  case error.error a b =>
    exact if h : a = b then .isTrue (by rw [h]) else .isFalse (by simpa using h)
  case ok.ok a b =>
    exact if h : a = b then .isTrue (by rw [h]) else .isFalse (by simpa using h)
  case error.ok a b => exact .isFalse (by simp)
  case ok.error a b => exact .isFalse (by simp)

/-- Outcome of one write-protocol call: the returned
`Result<bool>` (`ok true` = committed, `ok false` = conflict), the file
afterwards, whether the exclusive lock was released before returning,
and whether the verification comparison was reached and succeeded. -/
structure WriteOut where
  result : Except KvError Bool
  state : FileState
  lockReleased : Bool
  verified : Bool
deriving DecidableEq, Repr

/-- `FileHashMap::write_item` from `src/hashmap.rs`: under the exclusive
lock, re-read the record at `pos` and compare it to `prevItem`; on
mismatch unlock and report conflict; otherwise write `newItem` with its
`next` field replaced by `prevItem`'s and report commit.  A failing
verification read returns the IO error without unlocking. -/
def writeItem (o : WOracle) (s : FileState) (pos : Nat) (prevItem newItem : Item) :
    WriteOut :=
  if ¬o.verifyReadOk then ⟨.error .io, s, false, false⟩
  else
    let prevItemConfirm := readSlot s pos
    if prevItemConfirm ≠ prevItem then ⟨.ok false, s, true, false⟩
    else if ¬o.seekOk then ⟨.error .io, s, true, true⟩
    else
      let next := (prevItem.getNext).getD 0
      if ¬o.writeOk then ⟨.error .io, s, true, true⟩
      else ⟨.ok true, writeSlot s pos (storeNorm (newItem.withNext (some next))), true, true⟩

/-- `FileHashMap::write_new_item_to_heap` from `src/hashmap.rs`: under
the exclusive lock, read the header, write the new record at
`key_count + heap_size` unconditionally, then verify the predecessor at
`prevPos` against `prevItem`; on mismatch unlock and report conflict
(leaving the freshly written record orphaned and `heap_size`
unchanged); on match rewrite the predecessor with `next` pointing at the
new record, increment `heap_size`, write the header back and report
commit.  A failing header read or verification read returns the IO error
without unlocking. -/
def writeNewItemToHeap (o : HOracle) (s : FileState) (prevPos : Nat)
    (prevItem newItem : Item) : WriteOut :=
  if ¬o.headerReadOk then ⟨.error .io, s, false, false⟩
  else
    let header := s.header
    let newPos := header.keyCount + header.heapSize
    if ¬o.seekNewOk then ⟨.error .io, s, true, false⟩
    else if ¬o.writeNewOk then ⟨.error .io, s, true, false⟩
    else
      let s1 := writeSlot s newPos (storeNorm newItem)
      if ¬o.verifyReadOk then ⟨.error .io, s1, false, false⟩
      else
        let prevItemConfirm := readSlot s1 prevPos
        if prevItemConfirm ≠ prevItem then ⟨.ok false, s1, true, false⟩
        else if ¬o.seekPrevOk then ⟨.error .io, s1, true, true⟩
        else if ¬o.writePrevOk then ⟨.error .io, s1, true, true⟩
        else
          let s2 := writeSlot s1 prevPos (storeNorm (prevItem.withNext (some newPos)))
          if ¬o.headerWriteOk then ⟨.error .io, s2, true, true⟩
          else
            ⟨.ok true,
              { s2 with header := { s2.header with heapSize := s2.header.heapSize + 1 } },
              true, true⟩

/-- Outcome of a whole engine call: the returned result, the final file,
the sequence of positions read by the chain-walk `read_item` calls, and
the results of the write-protocol calls it made, in order. -/
structure OpOut (α : Type) where
  result : Except KvError α
  state : FileState
  rtrace : List Nat
  wtrace : List (Except KvError Bool)
deriving Repr

/-- Prepend one loop iteration's observations to an engine outcome. -/
def OpOut.push {α : Type} (pos : Nat) (w : Option (Except KvError Bool))
    (out : OpOut α) : OpOut α :=
  { out with
    rtrace := pos :: out.rtrace
    wtrace := match w with | some r => r :: out.wtrace | none => out.wtrace }

/-- Interference: how the file is mutated by other processes between
this call's unlocked chain read and its locked write-protocol call, as a
function of the iteration counter.  The identity models a quiescent
system. -/
abbrev Interf := Nat → FileState → FileState

/-- No interference: the file only changes under this call's own lock. -/
def noInterf : Interf := fun _ s => s

/-- The loop of `FileHashMap::insert` from `src/hashmap.rs`.  Each
iteration reads the record at `pos` (after which other writers may run:
`interf k`), classifies it as empty slot / matching key / chain link, and
dispatches to the write protocol or walks to `next`.  A write-protocol
conflict re-runs the loop at the same `pos`; a write-protocol IO error is
discarded by the `if let Ok(ok)` pattern and the call returns `Ok(())`.
`fuel` bounds the iteration count (the source loop is unbounded). -/
def insertGo (interf : Interf) (ow : Nat → WOracle) (oh : Nat → HOracle)
    (key : List Byte) (newItem : Item) :
    Nat → Nat → Nat → FileState → OpOut Unit
  | 0, _, _, s => ⟨.error .io, s, [], []⟩
  | fuel + 1, k, pos, s =>
      let item := readSlot s pos
      let s' := interf k s
      if item.isEmpty then
        let w := writeItem (ow k) s' pos item newItem
        match w.result with
        | .ok false => OpOut.push pos (some w.result)
            (insertGo interf ow oh key newItem fuel (k + 1) pos w.state)
        | r => ⟨.ok (), w.state, [pos], [r]⟩
      else if item.isKey key then
        let w := writeItem (ow k) s' pos item newItem
        match w.result with
        | .ok false => OpOut.push pos (some w.result)
            (insertGo interf ow oh key newItem fuel (k + 1) pos w.state)
        | r => ⟨.ok (), w.state, [pos], [r]⟩
      else
        match item.getNext with
        | some x => OpOut.push pos none
            (insertGo interf ow oh key newItem fuel (k + 1) x s')
        | none =>
            let w := writeNewItemToHeap (oh k) s' pos item newItem
            match w.result with
            | .ok false => OpOut.push pos (some w.result)
                (insertGo interf ow oh key newItem fuel (k + 1) pos w.state)
            | r => ⟨.ok (), w.state, [pos], [r]⟩

/-- `FileHashMap::insert` from `src/hashmap.rs` (after the
initialisation, open and header read): start the loop at the key's home
slot with `Item::new(key, val)`. -/
def insert (interf : Interf) (ow : Nat → WOracle) (oh : Nat → HOracle)
    (key val : List Byte) (fuel : Nat) (s : FileState) : OpOut Unit :=
  insertGo interf ow oh key (Item.new key val) fuel 0 (hash key s.header.keyCount) s

/-- The loop of `FileHashMap::remove` from `src/hashmap.rs`: walk the
chain from `pos`; on a key match commit the empty sentinel through the
write protocol (whose `next`-preservation turns it into a tombstone),
retrying at the same `pos` on conflict and discarding IO errors exactly
as `insert` does; report `NotFound` at chain end. -/
def removeGo (interf : Interf) (ow : Nat → WOracle) (key : List Byte)
    (newItem : Item) :
    Nat → Nat → Nat → FileState → OpOut Unit
  | 0, _, _, s => ⟨.error .io, s, [], []⟩
  | fuel + 1, k, pos, s =>
      let item := readSlot s pos
      let s' := interf k s
      if item.isKey key then
        let w := writeItem (ow k) s' pos item newItem
        match w.result with
        | .ok false => OpOut.push pos (some w.result)
            (removeGo interf ow key newItem fuel (k + 1) pos w.state)
        | r => ⟨.ok (), w.state, [pos], [r]⟩
      else
        match item.getNext with
        | some x => OpOut.push pos none
            (removeGo interf ow key newItem fuel (k + 1) x s')
        | none => ⟨.error .notFound, s, [pos], []⟩

/-- `FileHashMap::remove` from `src/hashmap.rs` (after initialisation,
open and header read): start the loop at the key's home slot with
`Item::empty()` as the record to commit. -/
def remove (interf : Interf) (ow : Nat → WOracle) (key : List Byte)
    (fuel : Nat) (s : FileState) : OpOut Unit :=
  removeGo interf ow key Item.empty fuel 0 (hash key s.header.keyCount) s

/-- The loop of `FileHashMap::get` from `src/hashmap.rs`: walk the chain
from `pos`; return the value on a key match, `NotFound` at chain end. -/
def getGo (s : FileState) (key : List Byte) :
    Nat → Nat → Except KvError (List Byte)
  | 0, _ => .error .io
  | fuel + 1, pos =>
      let item := readSlot s pos
      if item.isKey key then .ok item.getVal
      else
        match item.getNext with
        | some x => getGo s key fuel x
        | none => .error .notFound

/-- `FileHashMap::get` from `src/hashmap.rs`, including the implicit
`init_file_once(DEFAULT_KEY_COUNT)` on the (possibly absent) file. -/
def get (d : Option FileState) (key : List Byte) (fuel : Nat) :
    Except KvError (List Byte) :=
  let s := initFileOnce DEFAULT_KEY_COUNT d
  getGo s key fuel (hash key s.header.keyCount)

/-- Convenience for the sequential test scenarios: `insert` with no
interference and no IO failures. -/
def insertSeq (key val : List Byte) (fuel : Nat) (s : FileState) : OpOut Unit :=
  insert noInterf (fun _ => WOracle.ok) (fun _ => HOracle.ok) key val fuel s

/-- Convenience for the sequential test scenarios: `remove` with no
interference and no IO failures. -/
def removeSeq (key : List Byte) (fuel : Nat) (s : FileState) : OpOut Unit :=
  remove noInterf (fun _ => WOracle.ok) key fuel s

/-- The file-size bookkeeping invariant of the header: the number of
records in the file equals `key_count + heap_size`. -/
def SizeInv (s : FileState) : Prop :=
  s.slots.length = s.header.keyCount + s.header.heapSize

instance (s : FileState) : Decidable (SizeInv s) := by
  unfold SizeInv
  infer_instance

/-! ### Concrete scenario data

UTF-8 bytes of the strings used by the spec's test scenarios:
`"foo"`, `"doo"`, `"uma"`, `"bar"`, `"baz"`, `"dah"`, `"duma"`. -/

def kFoo : List Byte := [102, 111, 111]

def kDoo : List Byte := [100, 111, 111]

def kUma : List Byte := [117, 109, 97]

def vBar : List Byte := [98, 97, 114]

def vBaz : List Byte := [98, 97, 122]

def vDah : List Byte := [100, 97, 104]

def vDuma : List Byte := [100, 117, 109, 97]

/-- A freshly initialised file with a single bucket (`key_count = 1`),
as built by `init_file_once(1)` in the repository's own test. -/
def scA : FileState := initFileOnce 1 none

/-- `scA` after `insert("foo", "bar")`. -/
def scAB : FileState := (insertSeq kFoo vBar 10 scA).state

/-- `scAB` after `insert("doo", "dah")`. -/
def scABD : FileState := (insertSeq kDoo vDah 10 scAB).state

/-- `scABD` after `insert("uma", "duma")`. -/
def scABDU : FileState := (insertSeq kUma vDuma 10 scABD).state

/-- `scABDU` after `remove("doo")` (scenario C of the spec). -/
def scC7 : FileState := (removeSeq kDoo 10 scABDU).state

/-- `scABD` after the update `insert("foo", "baz")` (scenario B of the
spec). -/
def scC8 : FileState := (insertSeq kFoo vBaz 10 scABD).state

/-- A one-bucket file whose chain is `slot 0: ("foo","bar") → slot 1:
("doo","dah")`, with `heap_size = 1`. -/
def c2State : FileState :=
  ⟨⟨0, 1, 1284, 1⟩, [⟨kFoo, vBar, 1⟩, ⟨kDoo, vDah, 0⟩]⟩

/-- Interference for the C2 run: while our `insert("doo", …)` sits
between its chain read of slot 1 and its locked write, a concurrent
writer commits a different value for `"doo"` at slot 1. -/
def c2Interf : Interf := fun k s =>
  if k = 1 then writeSlot s 1 ⟨kDoo, [121], 0⟩ else s

/-- `insert("doo", "x")` on `c2State` under `c2Interf`: the write at
slot 1 conflicts once, then the retry commits. -/
def c2Run : OpOut Unit :=
  insert c2Interf (fun _ => WOracle.ok) (fun _ => HOracle.ok) kDoo [120] 10 c2State

/-- `insert("foo", "bar")` on a fresh one-bucket file where the write
protocol's pre-write seek fails with an IO error. -/
def c3Run : OpOut Unit :=
  insert noInterf (fun _ => ⟨true, false, true⟩) (fun _ => HOracle.ok)
    kFoo vBar 10 (initFileOnce 1 none)

/-- A one-bucket file holding only `("foo","bar")` in its home slot,
with `heap_size = 0`. -/
def c4State : FileState := ⟨⟨0, 1, 1284, 0⟩, [⟨kFoo, vBar, 0⟩]⟩

/-- Interference for the C4 run: while our `insert("doo", …)` sits
between its chain read of slot 0 and its locked heap append, a
concurrent `remove("foo")` tombstones slot 0. -/
def c4Interf : Interf := fun k s =>
  if k = 0 then writeSlot s 0 Item.empty else s

/-- `insert("doo", "dah")` on `c4State` under `c4Interf`: the heap
append writes the new record at slot 1, then its verification fails
(conflict); the retry finds slot 0 empty and commits there, leaving the
slot-1 record orphaned and unaccounted by `heap_size`. -/
def c4Run : OpOut Unit :=
  insert c4Interf (fun _ => WOracle.ok) (fun _ => HOracle.ok) kDoo vDah 10 c4State

/-- A heap-append attempt on `c4State` whose unconditional write of the
new record (step before verification) fails with an IO error. -/
def c10Out : WriteOut :=
  writeNewItemToHeap ⟨true, true, false, true, true, true, true⟩
    c4State 0 ⟨kFoo, vBar, 0⟩ (Item.new kDoo vDah)

/-- Witness data: a one-bucket file holding `("doo","dah")` in slot 0. -/
def cwS : FileState := ⟨⟨0, 1, 1284, 0⟩, [⟨kDoo, vDah, 0⟩]⟩

/-- Witness interference: a concurrent writer always rewrites slot 0
with a different value for `"doo"`. -/
def cwInterf : Interf := fun _ s => writeSlot s 0 ⟨kDoo, [121], 0⟩

/-- Witness data: a one-bucket file holding `("foo","bar")` in slot 0. -/
def cwS2 : FileState := ⟨⟨0, 1, 1284, 0⟩, [⟨kFoo, vBar, 0⟩]⟩

/-- Witness interference: a concurrent writer always fills slot 0 with
`("foo","bar")` (racing an insert that had found the slot empty). -/
def cwInterf2 : Interf := fun _ s => writeSlot s 0 ⟨kFoo, vBar, 0⟩

/-! ### Helper lemmas: the hash accumulator -/

theorem hashStep_eq_spec (t b : Nat) : hashStep t b = hashSpecStep t b := by
  unfold hashStep hashSpecStep add32 sub32 shl32
  have h32 : (2 : Nat) ^ 32 = 4294967296 := by norm_num
  have h6 : (2 : Nat) ^ 6 = 64 := by norm_num
  have h16 : (2 : Nat) ^ 16 = 65536 := by norm_num
  have hi32 : (2 : Int) ^ 32 = 4294967296 := by norm_num
  have hi6 : (2 : Int) ^ 6 = 64 := by norm_num
  have hi16 : (2 : Int) ^ 16 = 65536 := by norm_num
  rw [h32, h6, h16, hi32, hi6, hi16]
  omega

theorem foldl_hashStep_eq_spec (s : List Byte) (t : Nat) :
    s.foldl hashStep t = s.foldl hashSpecStep t := by
  induction s generalizing t with
  | nil => rfl
  | cons b rest ih =>
      simp only [List.foldl_cons, hashStep_eq_spec]
      exact ih _

/-! ### Helper lemmas: the record codec -/

namespace Item

theorem findNullByte_le_length (l : List Byte) : findNullByte l ≤ l.length := by
  induction l with
  | nil => simp [findNullByte]
  | cons b rest ih =>
      simp only [findNullByte, List.length_cons]
      split
      · omega
      · omega

theorem pad_length (l : List Byte) (n : Nat) : (pad l n).length = n := by
  simp [pad]
  omega

theorem pad_cons (b : Byte) (l : List Byte) (n : Nat) :
    pad (b :: l) (n + 1) = b :: pad l n := by
  simp [pad, List.take_succ_cons, Nat.succ_sub_succ]

theorem findNullByte_replicate_zero (n : Nat) :
    findNullByte (List.replicate n 0) = 0 := by
  cases n <;> simp [findNullByte, List.replicate]

theorem findNullByte_pad (l : List Byte) (n : Nat) :
    findNullByte (pad l n) = min (findNullByte l) n := by
  induction l generalizing n with
  | nil =>
      simp [pad, findNullByte, findNullByte_replicate_zero]
  | cons b rest ih =>
      cases n with
      | zero => simp [pad, findNullByte]
      | succ m =>
          rw [pad_cons]
          simp only [findNullByte]
          split
          · simp
          · rw [ih m]
            omega

theorem append_take_exact (A B : List Byte) (m : Nat) (h : A.length = m) :
    (A ++ B).take m = A := by
  subst h
  exact List.take_left A B

theorem append_drop_exact (A B : List Byte) (m : Nat) (h : A.length = m) :
    (A ++ B).drop m = B := by
  subst h
  exact List.drop_left A B

theorem append_take_le (A B : List Byte) (m : Nat) (h : m ≤ A.length) :
    (A ++ B).take m = A.take m :=
  List.take_append_of_le_length h

theorem pad_take (l : List Byte) (n m : Nat) (hm : m ≤ l.length) (hn : m ≤ n) :
    (pad l n).take m = l.take m := by
  rw [pad, append_take_le _ _ m (by rw [List.length_take]; omega)]
  rw [List.take_take, Nat.min_eq_left hn]

theorem bytesU32_u32Bytes (n : Nat) : bytesU32 (u32Bytes n) = n % 2 ^ 32 := by
  simp only [u32Bytes, bytesU32, List.getD]
  norm_num
  omega

theorem asBytes_split (k v : List Byte) (n : Nat) :
    asBytes ⟨k, v, n⟩ = pad k 256 ++ (pad v 1024 ++ u32Bytes n) := by
  rw [asBytes, List.append_assoc]

/-- The record codec round trip in closed form: the key survives up to
the first zero byte or the 256-byte field width, the value up to the
first zero byte or the 1024-byte field width, and `next` modulo
`2 ^ 32`. -/
theorem fromBytes_asBytes (k v : List Byte) (n : Nat) :
    fromBytes (asBytes ⟨k, v, n⟩) =
      ⟨k.take (min (findNullByte k) 256),
       v.take (min (findNullByte v) 1024),
       n % 2 ^ 32⟩ := by
  have hk : (pad k 256).length = 256 := pad_length k 256
  have hv : (pad v 1024).length = 1024 := pad_length v 1024
  have htake : (asBytes ⟨k, v, n⟩).take 256 = pad k 256 := by
    rw [asBytes_split]
    exact append_take_exact _ _ 256 hk
  have hdrop : (asBytes ⟨k, v, n⟩).drop 256 = pad v 1024 ++ u32Bytes n := by
    rw [asBytes_split]
    exact append_drop_exact _ _ 256 hk
  have hdrop2 : (asBytes ⟨k, v, n⟩).drop 1280 = u32Bytes n := by
    have h0 : (1280 : Nat) = 256 + 1024 := by norm_num
    rw [h0, ← List.drop_drop, hdrop]
    exact append_drop_exact _ _ 1024 hv
  have hvtake : ((asBytes ⟨k, v, n⟩).drop 256).take 1024 = pad v 1024 := by
    rw [hdrop]
    exact append_take_exact _ _ 1024 hv
  have hkLen : min (findNullByte k) 256 ≤ k.length :=
    le_trans (min_le_left _ _) (findNullByte_le_length k)
  have hvLen : min (findNullByte v) 1024 ≤ v.length :=
    le_trans (min_le_left _ _) (findNullByte_le_length v)
  rw [fromBytes]
  simp only [htake, hvtake, hdrop2, findNullByte_pad, bytesU32_u32Bytes]
  congr 1
  · calc (asBytes ⟨k, v, n⟩).take (min (findNullByte k) 256)
        = ((asBytes ⟨k, v, n⟩).take 256).take (min (findNullByte k) 256) := by
          rw [List.take_take, Nat.min_eq_left (min_le_right _ _)]
      _ = (pad k 256).take (min (findNullByte k) 256) := by rw [htake]
      _ = k.take (min (findNullByte k) 256) :=
          pad_take k 256 _ hkLen (min_le_right _ _)
  · calc ((asBytes ⟨k, v, n⟩).drop 256).take (min (findNullByte v) 1024)
        = (((asBytes ⟨k, v, n⟩).drop 256).take 1024).take (min (findNullByte v) 1024) := by
          rw [List.take_take, Nat.min_eq_left (min_le_right _ _)]
      _ = (pad v 1024).take (min (findNullByte v) 1024) := by rw [hvtake]
      _ = v.take (min (findNullByte v) 1024) :=
          pad_take v 1024 _ hvLen (min_le_right _ _)

theorem findNullByte_of_not_mem (l : List Byte) (h : 0 ∉ l) :
    findNullByte l = l.length := by
  induction l with
  | nil => rfl
  | cons b rest ih =>
      simp only [List.mem_cons, not_or] at h
      simp only [findNullByte, List.length_cons]
      rw [if_neg (fun hb => h.1 hb.symm), ih h.2]

theorem findNullByte_lt_of_mem_take (l : List Byte) (m : Nat)
    (h : 0 ∈ l.take m) : findNullByte l < m := by
  induction l generalizing m with
  | nil => simp at h
  | cons b rest ih =>
      cases m with
      | zero => simp at h
      | succ j =>
          simp only [List.take_succ_cons, List.mem_cons] at h
          simp only [findNullByte]
          by_cases hb : b = 0
          · rw [if_pos hb]
            omega
          · rw [if_neg hb]
            have h2 : 0 ∈ rest.take j := by
              rcases h with h | h
              · exact absurd h.symm hb
              · exact h
            have := ih j h2
            omega

end Item

theorem utf8Lossy_ascii (l : List Byte) (h : ∀ b ∈ l, b < 128) :
    utf8Lossy l = l := by
  induction l with
  | nil => rfl
  | cons b rest ih =>
      have hb : b < 128 := h b (List.mem_cons_self b rest)
      rw [utf8Lossy.eq_def]
      simp only [if_pos hb]
      rw [ih (fun c hc => h c (List.mem_cons_of_mem b hc))]

/-! ### Helper lemmas: the write protocol and the file -/

theorem writeItem_lockReleased (o : WOracle) (s : FileState) (pos : Nat)
    (pi ni : Item) :
    (writeItem o s pos pi ni).lockReleased = false ↔ o.verifyReadOk = false := by
  rcases o with ⟨b1, b2, b3⟩
  cases b1 <;> cases b2 <;> cases b3 <;>
    simp [writeItem] <;> (try (split <;> simp))

theorem writeNewItemToHeap_lockReleased (o : HOracle) (s : FileState) (pp : Nat)
    (pi ni : Item) :
    (writeNewItemToHeap o s pp pi ni).lockReleased = false ↔
      (o.headerReadOk = false ∨
        (o.seekNewOk = true ∧ o.writeNewOk = true ∧ o.verifyReadOk = false)) := by
  rcases o with ⟨b1, b2, b3, b4, b5, b6, b7⟩
  cases b1 <;> cases b2 <;> cases b3 <;> cases b4 <;> cases b5 <;> cases b6 <;> cases b7 <;>
    simp [writeNewItemToHeap] <;> (try (split <;> simp))

theorem writeItem_verifyReadFail (o : WOracle) (s : FileState) (pos : Nat)
    (pi ni : Item) (h : o.verifyReadOk = false) :
    writeItem o s pos pi ni = ⟨.error .io, s, false, false⟩ := by
  simp [writeItem, h]

theorem writeNewItemToHeap_headerReadFail (o : HOracle) (s : FileState) (pp : Nat)
    (pi ni : Item) (h : o.headerReadOk = false) :
    writeNewItemToHeap o s pp pi ni = ⟨.error .io, s, false, false⟩ := by
  simp [writeNewItemToHeap, h]

theorem writeSlot_length_of_lt (s : FileState) (pos : Nat) (it : Item)
    (h : pos < s.slots.length) :
    (writeSlot s pos it).slots.length = s.slots.length := by
  simp [writeSlot, h]

theorem writeSlot_length_of_eq (s : FileState) (it : Item)
    (pos : Nat) (h : pos = s.slots.length) :
    (writeSlot s pos it).slots.length = s.slots.length + 1 := by
  simp [writeSlot, h]

theorem writeSlot_header (s : FileState) (pos : Nat) (it : Item) :
    (writeSlot s pos it).header = s.header := by
  simp [writeSlot]

theorem writeItem_frame (o : WOracle) (s : FileState) (pos : Nat)
    (pi ni : Item) (h : pos < s.slots.length) :
    (writeItem o s pos pi ni).state.slots.length = s.slots.length ∧
      (writeItem o s pos pi ni).state.header = s.header := by
  by_cases h1 : o.verifyReadOk = true
  · by_cases hc : readSlot s pos = pi
    · by_cases h2 : o.seekOk = true
      · by_cases h3 : o.writeOk = true
        · simp [writeItem, h1, hc, h2, h3, writeSlot_length_of_lt s pos _ h,
            writeSlot_header]
        · simp [writeItem, h1, hc, h2, h3]
      · simp [writeItem, h1, hc, h2]
    · simp [writeItem, h1, hc]
  · simp [writeItem, h1]

theorem writeNewItemToHeap_commit_inv (o : HOracle) (s : FileState) (pp : Nat)
    (pi ni : Item) (hinv : SizeInv s) (hpp : pp < s.slots.length)
    (hres : (writeNewItemToHeap o s pp pi ni).result = .ok true) :
    SizeInv (writeNewItemToHeap o s pp pi ni).state := by
  have hlen : s.header.keyCount + s.header.heapSize = s.slots.length := hinv.symm
  have h1 := writeSlot_length_of_eq s (storeNorm ni)
    (s.header.keyCount + s.header.heapSize) hlen
  have hh1 := writeSlot_header s (s.header.keyCount + s.header.heapSize) (storeNorm ni)
  have h2 := writeSlot_length_of_lt
    (writeSlot s (s.header.keyCount + s.header.heapSize) (storeNorm ni)) pp
    (storeNorm (pi.withNext (some (s.header.keyCount + s.header.heapSize))))
    (by rw [h1]; omega)
  have hh2 := writeSlot_header
    (writeSlot s (s.header.keyCount + s.header.heapSize) (storeNorm ni)) pp
    (storeNorm (pi.withNext (some (s.header.keyCount + s.header.heapSize))))
  by_cases b1 : o.headerReadOk = true
  · by_cases b2 : o.seekNewOk = true
    · by_cases b3 : o.writeNewOk = true
      · by_cases b4 : o.verifyReadOk = true
        · by_cases hc :
            readSlot (writeSlot s (s.header.keyCount + s.header.heapSize) (storeNorm ni))
              pp = pi
          · by_cases b5 : o.seekPrevOk = true
            · by_cases b6 : o.writePrevOk = true
              · by_cases b7 : o.headerWriteOk = true
                · simp only [writeNewItemToHeap, b1, b2, b3, b4, b5, b6, b7, hc, SizeInv,
                    not_true, if_false, ne_eq, not_false_eq_true, if_true, if_neg,
                    Bool.not_eq_true]
                  simp only [SizeInv] at hinv
                  simp [h2, h1, hh2, hh1]
                  omega
                · simp [writeNewItemToHeap, b1, b2, b3, b4, b5, b6, b7, hc] at hres
              · simp [writeNewItemToHeap, b1, b2, b3, b4, b5, b6, hc] at hres
            · simp [writeNewItemToHeap, b1, b2, b3, b4, b5, hc] at hres
          · simp [writeNewItemToHeap, b1, b2, b3, b4, hc] at hres
        · simp [writeNewItemToHeap, b1, b2, b3, b4] at hres
      · simp [writeNewItemToHeap, b1, b2, b3] at hres
    · simp [writeNewItemToHeap, b1, b2] at hres
  · simp [writeNewItemToHeap, b1] at hres

theorem writeNewItemToHeap_conflict_size (o : HOracle) (s : FileState) (pp : Nat)
    (pi ni : Item) (hinv : SizeInv s)
    (hres : (writeNewItemToHeap o s pp pi ni).result = .ok false) :
    (writeNewItemToHeap o s pp pi ni).state.slots.length =
        s.header.keyCount + s.header.heapSize + 1 ∧
      (writeNewItemToHeap o s pp pi ni).state.header = s.header := by
  have hlen : s.header.keyCount + s.header.heapSize = s.slots.length := hinv.symm
  have h1 := writeSlot_length_of_eq s (storeNorm ni)
    (s.header.keyCount + s.header.heapSize) hlen
  have hh1 := writeSlot_header s (s.header.keyCount + s.header.heapSize) (storeNorm ni)
  by_cases b1 : o.headerReadOk = true
  · by_cases b2 : o.seekNewOk = true
    · by_cases b3 : o.writeNewOk = true
      · by_cases b4 : o.verifyReadOk = true
        · by_cases hc :
            readSlot (writeSlot s (s.header.keyCount + s.header.heapSize) (storeNorm ni))
              pp = pi
          · by_cases b5 : o.seekPrevOk = true
            · by_cases b6 : o.writePrevOk = true
              · by_cases b7 : o.headerWriteOk = true
                · simp [writeNewItemToHeap, b1, b2, b3, b4, b5, b6, b7, hc] at hres
                · simp [writeNewItemToHeap, b1, b2, b3, b4, b5, b6, b7, hc] at hres
              · simp [writeNewItemToHeap, b1, b2, b3, b4, b5, b6, hc] at hres
            · simp [writeNewItemToHeap, b1, b2, b3, b4, b5, hc] at hres
          · simp [writeNewItemToHeap, b1, b2, b3, b4, hc, h1, hh1]
            omega
        · simp [writeNewItemToHeap, b1, b2, b3, b4] at hres
      · simp [writeNewItemToHeap, b1, b2, b3] at hres
    · simp [writeNewItemToHeap, b1, b2] at hres
  · simp [writeNewItemToHeap, b1] at hres

theorem getD_replicate {α : Type} (a d : α) (i n : Nat) (h : i < n) :
    (List.replicate n a).getD i d = a := by
  induction n generalizing i with
  | zero => omega
  | succ m ih =>
      cases i with
      | zero => rfl
      | succ j =>
          simp only [List.replicate, List.getD_cons_succ]
          exact ih j (by omega)

theorem insertGo_conflict_at_key (interf : Interf) (ow : Nat → WOracle)
    (oh : Nat → HOracle) (key : List Byte) (ni : Item) (fuel k pos : Nat)
    (s : FileState)
    (hne : (readSlot s pos).isEmpty = false)
    (hkey : (readSlot s pos).isKey key = true)
    (hconf : (writeItem (ow k) (interf k s) pos (readSlot s pos) ni).result = .ok false) :
    insertGo interf ow oh key ni (fuel + 1) k pos s =
      OpOut.push pos (some (.ok false))
        (insertGo interf ow oh key ni fuel (k + 1) pos
          (writeItem (ow k) (interf k s) pos (readSlot s pos) ni).state) := by
  conv_lhs => rw [insertGo]
  simp only [hne, hkey, hconf, Bool.false_eq_true, if_false, if_true]

theorem insertGo_conflict_at_empty (interf : Interf) (ow : Nat → WOracle)
    (oh : Nat → HOracle) (key : List Byte) (ni : Item) (fuel k pos : Nat)
    (s : FileState)
    (hemp : (readSlot s pos).isEmpty = true)
    (hconf : (writeItem (ow k) (interf k s) pos (readSlot s pos) ni).result = .ok false) :
    insertGo interf ow oh key ni (fuel + 1) k pos s =
      OpOut.push pos (some (.ok false))
        (insertGo interf ow oh key ni fuel (k + 1) pos
          (writeItem (ow k) (interf k s) pos (readSlot s pos) ni).state) := by
  conv_lhs => rw [insertGo]
  simp only [hemp, hconf, if_true]

theorem insertGo_conflict_at_chain_end (interf : Interf) (ow : Nat → WOracle)
    (oh : Nat → HOracle) (key : List Byte) (ni : Item) (fuel k pos : Nat)
    (s : FileState)
    (hne : (readSlot s pos).isEmpty = false)
    (hnk : (readSlot s pos).isKey key = false)
    (hnx : (readSlot s pos).getNext = none)
    (hconf : (writeNewItemToHeap (oh k) (interf k s) pos (readSlot s pos) ni).result =
      .ok false) :
    insertGo interf ow oh key ni (fuel + 1) k pos s =
      OpOut.push pos (some (.ok false))
        (insertGo interf ow oh key ni fuel (k + 1) pos
          (writeNewItemToHeap (oh k) (interf k s) pos (readSlot s pos) ni).state) := by
  conv_lhs => rw [insertGo]
  simp only [hne, hnk, hnx, hconf, Bool.false_eq_true, if_false]

theorem removeGo_conflict_at_key (interf : Interf) (ow : Nat → WOracle)
    (key : List Byte) (ni : Item) (fuel k pos : Nat) (s : FileState)
    (hkey : (readSlot s pos).isKey key = true)
    (hconf : (writeItem (ow k) (interf k s) pos (readSlot s pos) ni).result = .ok false) :
    removeGo interf ow key ni (fuel + 1) k pos s =
      OpOut.push pos (some (.ok false))
        (removeGo interf ow key ni fuel (k + 1) pos
          (writeItem (ow k) (interf k s) pos (readSlot s pos) ni).state) := by
  conv_lhs => rw [removeGo]
  simp only [hkey, hconf, if_true]

theorem insertGo_swallows_error (interf : Interf) (ow : Nat → WOracle)
    (oh : Nat → HOracle) (key : List Byte) (ni : Item) (fuel k pos : Nat)
    (s : FileState) (e : KvError)
    (hemp : (readSlot s pos).isEmpty = true)
    (herr : (writeItem (ow k) (interf k s) pos (readSlot s pos) ni).result = .error e) :
    insertGo interf ow oh key ni (fuel + 1) k pos s =
      ⟨.ok (), (writeItem (ow k) (interf k s) pos (readSlot s pos) ni).state,
        [pos], [.error e]⟩ := by
  conv_lhs => rw [insertGo]
  simp only [hemp, herr, if_true]

theorem removeGo_swallows_error (interf : Interf) (ow : Nat → WOracle)
    (key : List Byte) (ni : Item) (fuel k pos : Nat) (s : FileState) (e : KvError)
    (hkey : (readSlot s pos).isKey key = true)
    (herr : (writeItem (ow k) (interf k s) pos (readSlot s pos) ni).result = .error e) :
    removeGo interf ow key ni (fuel + 1) k pos s =
      ⟨.ok (), (writeItem (ow k) (interf k s) pos (readSlot s pos) ni).state,
        [pos], [.error e]⟩ := by
  conv_lhs => rw [removeGo]
  simp only [hkey, herr, if_true]

/-! ### The claims -/

/-- **C1**: the hash function agrees, for every key and every bucket
count `n ≥ 1`, with the reference definition written from the spec (a
32-bit accumulator starting at 0, updated per byte to
`b + (total << 6) + (total << 16) - total` with wrapping arithmetic,
reduced modulo `n`), and its result is strictly below `n`.  Determinism
for fixed `(s, n)` is inherent: `hash` is a pure function of `(s, n)`. -/
theorem hash_correct (s : List Byte) (n : Nat) (hn : 1 ≤ n) :
    hash s n = hashSpec s n ∧ hash s n < n :=
  ⟨by unfold hash hashSpec; rw [foldl_hashStep_eq_spec], Nat.mod_lt _ hn⟩

/-- Witness for `hash_correct` at the key `"foo"` and `n = 256`. -/
theorem hash_correct_witness :
    1 ≤ 256 ∧ (hash kFoo 256 = hashSpec kFoo 256 ∧ hash kFoo 256 < 256) :=
  ⟨by norm_num, hash_correct kFoo 256 (by norm_num)⟩

/-- **C5**: for every Item whose key is at most 256 bytes, whose value
is at most 1024 bytes, neither containing a zero byte, and every `next`
value representable as `u32`, decoding the 1284-byte encoding returns
the Item unchanged. -/
theorem item_roundtrip (k v : List Byte) (n : Nat)
    (hk : k.length ≤ 256) (hk0 : 0 ∉ k)
    (hv : v.length ≤ 1024) (hv0 : 0 ∉ v) (hn : n < 2 ^ 32) :
    Item.fromBytes (Item.asBytes ⟨k, v, n⟩) = ⟨k, v, n⟩ := by
  rw [Item.fromBytes_asBytes k v n]
  have h1 : min (Item.findNullByte k) 256 = k.length := by
    rw [Item.findNullByte_of_not_mem k hk0]
    omega
  have h2 : min (Item.findNullByte v) 1024 = v.length := by
    rw [Item.findNullByte_of_not_mem v hv0]
    omega
  simp only [h1, h2, List.take_length, Nat.mod_eq_of_lt hn]

/-- Witness for `item_roundtrip` at `("foo", "bar", next = 7)`. -/
theorem item_roundtrip_witness :
    (kFoo.length ≤ 256 ∧ 0 ∉ kFoo ∧ vBar.length ≤ 1024 ∧ 0 ∉ vBar ∧ 7 < 2 ^ 32) ∧
      Item.fromBytes (Item.asBytes ⟨kFoo, vBar, 7⟩) = ⟨kFoo, vBar, 7⟩ :=
  ⟨⟨by decide, by decide, by decide, by decide, by norm_num⟩,
    item_roundtrip kFoo vBar 7 (by decide) (by decide) (by decide) (by decide)
      (by norm_num)⟩

set_option maxRecDepth 100000 in
/-- **C6** counterexample: the claim's final clause says *any* key with
an embedded zero byte round-trips to the prefix preceding its first zero
byte.  For the 261-byte key `'a'*260 ++ [0]` the first zero byte sits at
index 260, past the 256-byte field width, so the decoded key is 256
`'a'`s — not the 260-byte prefix preceding the zero byte.  (The input is
pure ASCII, so the raw field extraction used here coincides with the
full `Item::from` decode: `from_utf8_lossy` is the identity on it.) -/
theorem zero_byte_law_counterexample :
    (Item.fromBytes (Item.asBytes ⟨List.replicate 260 97 ++ [0], [], 0⟩)).key =
        List.replicate 256 97 ∧
      List.replicate 256 97 ≠ (List.replicate 260 97 ++ [0] : List Byte).take
        (Item.findNullByte (List.replicate 260 97 ++ [0])) := by
  constructor
  · decide
  · decide

set_option maxRecDepth 100000 in
/-- **C6 (amended)**: encoding is total (it is a function; no error
path exists), and the full decode `Item::from` — raw field extraction
followed by `String::from_utf8_lossy` — yields exactly
`from_utf8_lossy` of the key truncated at the first zero byte or at 256
bytes, whichever comes first (value: 1024 bytes); when key and value
are ASCII this is exactly the truncated prefix; a 300-byte all-`'a'`
key decodes to exactly 256 `'a'`s; a key valid in UTF-8 but truncated
mid-character gets a `U+FFFD` substitution — `'a'*255 ++ "é"` decodes
to 255 `'a'`s followed by `U+FFFD`, not a raw byte prefix; and an ASCII
key whose **first zero byte lies within the 256-byte field** decodes to
exactly the prefix preceding that zero byte (the unrestricted zero-byte
clause of the claim is refuted by `zero_byte_law_counterexample`). -/
theorem item_truncation_law (k v : List Byte) (n : Nat) :
    itemFrom (Item.asBytes ⟨k, v, n⟩) =
        ⟨utf8Lossy (k.take (min (Item.findNullByte k) 256)),
          utf8Lossy (v.take (min (Item.findNullByte v) 1024)), n % 2 ^ 32⟩ ∧
      ((∀ b ∈ k, b < 128) → (∀ b ∈ v, b < 128) →
        itemFrom (Item.asBytes ⟨k, v, n⟩) =
          ⟨k.take (min (Item.findNullByte k) 256),
            v.take (min (Item.findNullByte v) 1024), n % 2 ^ 32⟩) ∧
      (itemFrom (Item.asBytes ⟨List.replicate 300 97, v, n⟩)).key =
        List.replicate 256 97 ∧
      (itemFrom (Item.asBytes ⟨List.replicate 255 97 ++ [195, 169], [], 0⟩)).key =
        List.replicate 255 97 ++ repChar ∧
      ((∀ b ∈ k, b < 128) → 0 ∈ k.take 256 →
        (itemFrom (Item.asBytes ⟨k, v, n⟩)).key =
          k.take (Item.findNullByte k)) := by
  have hgen : itemFrom (Item.asBytes ⟨k, v, n⟩) =
      ⟨utf8Lossy (k.take (min (Item.findNullByte k) 256)),
        utf8Lossy (v.take (min (Item.findNullByte v) 1024)), n % 2 ^ 32⟩ := by
    unfold itemFrom
    rw [Item.fromBytes_asBytes k v n]
  refine ⟨hgen, ?_, ?_, ?_, ?_⟩
  · intro hk hv
    rw [hgen,
      utf8Lossy_ascii _ (fun b hb => hk b (List.take_subset _ _ hb)),
      utf8Lossy_ascii _ (fun b hb => hv b (List.take_subset _ _ hb))]
  · have hg2 : itemFrom (Item.asBytes ⟨List.replicate 300 97, v, n⟩) =
        ⟨utf8Lossy ((List.replicate 300 97).take
            (min (Item.findNullByte (List.replicate 300 97)) 256)),
          utf8Lossy (v.take (min (Item.findNullByte v) 1024)), n % 2 ^ 32⟩ := by
      unfold itemFrom
      rw [Item.fromBytes_asBytes (List.replicate 300 97) v n]
    rw [hg2]
    have h0 : (0 : Byte) ∉ List.replicate 300 97 := by
      intro hmem
      exact absurd (List.eq_of_mem_replicate hmem) (by decide)
    rw [Item.findNullByte_of_not_mem _ h0, List.length_replicate]
    have hmin : min (300 : Nat) 256 = 256 := by norm_num
    rw [hmin, List.take_replicate]
    have hmin2 : min (256 : Nat) 300 = 256 := by norm_num
    rw [hmin2]
    exact utf8Lossy_ascii _ (fun b hb => by
      rw [List.eq_of_mem_replicate hb]
      norm_num)
  · decide
  · intro hk hmem
    rw [hgen]
    have hlt : Item.findNullByte k < 256 := Item.findNullByte_lt_of_mem_take k 256 hmem
    rw [Nat.min_eq_left (by omega)]
    exact utf8Lossy_ascii _ (fun b hb => hk b (List.take_subset _ _ hb))

/-- Witness for `item_truncation_law` at the ASCII key `[97, 0, 98]`
(an embedded zero byte within the field width) and the value `[5]`. -/
theorem item_truncation_law_witness :
    ((∀ b ∈ ([97, 0, 98] : List Byte), b < 128) ∧
      (∀ b ∈ ([5] : List Byte), b < 128) ∧
      0 ∈ ([97, 0, 98] : List Byte).take 256) ∧
      itemFrom (Item.asBytes ⟨[97, 0, 98], [5], 3⟩) =
        ⟨([97, 0, 98] : List Byte).take (min (Item.findNullByte [97, 0, 98]) 256),
          ([5] : List Byte).take (min (Item.findNullByte [5]) 1024), 3 % 2 ^ 32⟩ ∧
      (itemFrom (Item.asBytes ⟨[97, 0, 98], [5], 3⟩)).key =
        ([97, 0, 98] : List Byte).take (Item.findNullByte [97, 0, 98]) :=
  ⟨⟨by decide, by decide, by decide⟩,
   (item_truncation_law [97, 0, 98] [5] 3).2.1 (by decide) (by decide),
   (item_truncation_law [97, 0, 98] [5] 3).2.2.2.2 (by decide) (by decide)⟩

set_option maxRecDepth 100000 in
/-- **C9** counterexample: `get` with the **empty key** on a
never-touched path does not return `NotFound`: the freshly initialised
home slot is the empty sentinel, whose key `""` matches the searched
key, so `get` returns `Ok("")`. -/
theorem fresh_get_empty_key_counterexample :
    get none [] 1 = .ok [] := by decide

/-- **C9 (amended)**: for every **nonempty** key, `get` on a
never-before-touched file path implicitly initialises the file (256
buckets) and returns `NotFound` — not an IO error and not a value; the
empty key instead returns `Ok("")`, per
`fresh_get_empty_key_counterexample`. -/
theorem fresh_get_notFound (key : List Byte) (fuel : Nat) (hk : key ≠ []) :
    get none key (fuel + 1) = .error .notFound := by
  have hne : Item.isKey ⟨[], [], 0⟩ key = false := by
    simp only [Item.isKey, decide_eq_false_iff_not]
    exact fun h => hk h.symm
  have hlt : hash key 256 < 256 := Nat.mod_lt _ (by norm_num)
  unfold get initFileOnce DEFAULT_KEY_COUNT
  unfold getGo
  simp only [readSlot]
  rw [show Item.empty = (⟨[], [], 0⟩ : Item) from rfl]
  rw [getD_replicate (⟨[], [], 0⟩ : Item) (⟨[], [], 0⟩ : Item) _ 256 hlt]
  simp [hne, Item.getNext]

/-- Witness for `fresh_get_notFound` at the key `"f"`. -/
theorem fresh_get_notFound_witness :
    ([102] : List Byte) ≠ [] ∧ get none [102] 1 = .error .notFound :=
  ⟨by decide, fresh_get_notFound [102] 0 (by decide)⟩

set_option maxRecDepth 100000 in
/-- **C7**: scenario C of the spec.  With one bucket, after inserting
`"foo"`, `"doo"`, `"uma"` in that order and removing `"doo"`:
`get("doo")` is `NotFound`, `get("uma")` still returns `"duma"`, and the
record at the removed position (slot 1) is the empty sentinel with the
removed item's `next` pointer (2) preserved. -/
theorem mid_chain_removal_scenario :
    (removeSeq kDoo 10 scABDU).result = .ok () ∧
      get (some scC7) kDoo 10 = .error .notFound ∧
      get (some scC7) kUma 10 = .ok vDuma ∧
      scC7.slots.getD 1 Item.empty = ⟨[], [], 2⟩ := by
  refine ⟨by decide, by decide, by decide, by decide⟩

set_option maxRecDepth 100000 in
/-- **C8**: scenario B of the spec.  With one bucket, after inserting
`"foo" → "bar"` then `"doo" → "dah"`, the update `insert("foo", "baz")`
commits the new value while leaving the slot's `next` pointer (1)
unchanged, so `get("foo") = "baz"` and `get("doo") = "dah"`. -/
theorem update_preserves_chain_scenario :
    (insertSeq kFoo vBaz 10 scABD).result = .ok () ∧
      get (some scC8) kFoo 10 = .ok vBaz ∧
      get (some scC8) kDoo 10 = .ok vDah ∧
      scC8.slots.getD 0 Item.empty = ⟨kFoo, vBaz, 1⟩ := by
  refine ⟨by decide, by decide, by decide, by decide⟩

set_option maxRecDepth 100000 in
/-- **C2** counterexample: in `c2Run` the home slot of `"doo"` is 0 and
the conflicted write happens at slot 1 (read trace so far `[0, 1]`,
write trace `[conflict]`), yet the next chain read after the conflict is
again at slot 1 — the read trace is `[0, 1, 1]` — and not at the home
slot 0 as the claim requires ("restarts the entire chain walk from the
home slot").  The loop's `continue` re-enters with `pos` unchanged. -/
theorem conflict_restart_counterexample :
    c2Run.result = .ok () ∧ c2Run.rtrace = [0, 1, 1] ∧
      c2Run.wtrace = [.ok false, .ok true] ∧ hash kDoo 1 = 0 ∧
      c2Run.rtrace.getD 2 0 ≠ hash kDoo 1 := by
  refine ⟨by decide, by decide, by decide, by decide, by decide⟩

/-- **C2 (amended)**: on a write-protocol conflict, `insert` and
`remove` discard the in-memory record they had read and retry **at the
slot where the conflict occurred** (re-reading and re-classifying it),
not from the home slot: the loop re-enters with the same `pos`.  This
holds at each conflict site — insert's empty-slot write
(hashmap.rs:262-263), insert's key-match update (hashmap.rs:270-271),
insert's chain-end heap append (hashmap.rs:282-283), and remove's
key-match tombstoning (hashmap.rs:309-310). -/
theorem conflict_retries_at_current_slot (interf : Interf) (ow : Nat → WOracle)
    (oh : Nat → HOracle) (key : List Byte) (ni : Item) (fuel k pos : Nat)
    (s : FileState) :
    ((readSlot s pos).isEmpty = true →
      (writeItem (ow k) (interf k s) pos (readSlot s pos) ni).result = .ok false →
      insertGo interf ow oh key ni (fuel + 1) k pos s =
        OpOut.push pos (some (.ok false))
          (insertGo interf ow oh key ni fuel (k + 1) pos
            (writeItem (ow k) (interf k s) pos (readSlot s pos) ni).state)) ∧
    ((readSlot s pos).isEmpty = false →
      (readSlot s pos).isKey key = true →
      (writeItem (ow k) (interf k s) pos (readSlot s pos) ni).result = .ok false →
      insertGo interf ow oh key ni (fuel + 1) k pos s =
        OpOut.push pos (some (.ok false))
          (insertGo interf ow oh key ni fuel (k + 1) pos
            (writeItem (ow k) (interf k s) pos (readSlot s pos) ni).state)) ∧
    ((readSlot s pos).isEmpty = false →
      (readSlot s pos).isKey key = false →
      (readSlot s pos).getNext = none →
      (writeNewItemToHeap (oh k) (interf k s) pos (readSlot s pos) ni).result =
        .ok false →
      insertGo interf ow oh key ni (fuel + 1) k pos s =
        OpOut.push pos (some (.ok false))
          (insertGo interf ow oh key ni fuel (k + 1) pos
            (writeNewItemToHeap (oh k) (interf k s) pos (readSlot s pos) ni).state)) ∧
    ((readSlot s pos).isKey key = true →
      (writeItem (ow k) (interf k s) pos (readSlot s pos) ni).result = .ok false →
      removeGo interf ow key ni (fuel + 1) k pos s =
        OpOut.push pos (some (.ok false))
          (removeGo interf ow key ni fuel (k + 1) pos
            (writeItem (ow k) (interf k s) pos (readSlot s pos) ni).state)) :=
  ⟨fun h1 h2 => insertGo_conflict_at_empty interf ow oh key ni fuel k pos s h1 h2,
   fun h1 h2 h3 => insertGo_conflict_at_key interf ow oh key ni fuel k pos s h1 h2 h3,
   fun h1 h2 h3 h4 =>
     insertGo_conflict_at_chain_end interf ow oh key ni fuel k pos s h1 h2 h3 h4,
   fun h1 h2 => removeGo_conflict_at_key interf ow key ni fuel k pos s h1 h2⟩

set_option maxRecDepth 100000 in
/-- Witness for `conflict_retries_at_current_slot`, exercising all four
conflict sites: an empty-slot conflict on a fresh one-bucket file raced
by `cwInterf2`, a key-match conflict and a remove conflict on `cwS`
raced by `cwInterf`, and a chain-end heap-append conflict on `cwS2`
raced by `cwInterf`. -/
theorem conflict_retries_at_current_slot_witness :
    ((readSlot (initFileOnce 1 none) 0).isEmpty = true) ∧
      ((writeItem (WOracle.ok) (cwInterf2 0 (initFileOnce 1 none)) 0
        (readSlot (initFileOnce 1 none) 0) (Item.new kFoo vBar)).result = .ok false) ∧
      (insertGo cwInterf2 (fun _ => WOracle.ok) (fun _ => HOracle.ok) kFoo
          (Item.new kFoo vBar) 3 0 0 (initFileOnce 1 none) =
        OpOut.push 0 (some (.ok false))
          (insertGo cwInterf2 (fun _ => WOracle.ok) (fun _ => HOracle.ok) kFoo
            (Item.new kFoo vBar) 2 1 0
            (writeItem (WOracle.ok) (cwInterf2 0 (initFileOnce 1 none)) 0
              (readSlot (initFileOnce 1 none) 0) (Item.new kFoo vBar)).state)) ∧
      ((readSlot cwS 0).isEmpty = false) ∧
      ((readSlot cwS 0).isKey kDoo = true) ∧
      ((writeItem (WOracle.ok) (cwInterf 0 cwS) 0 (readSlot cwS 0)
        (Item.new kDoo [120])).result = .ok false) ∧
      (insertGo cwInterf (fun _ => WOracle.ok) (fun _ => HOracle.ok) kDoo
          (Item.new kDoo [120]) 3 0 0 cwS =
        OpOut.push 0 (some (.ok false))
          (insertGo cwInterf (fun _ => WOracle.ok) (fun _ => HOracle.ok) kDoo
            (Item.new kDoo [120]) 2 1 0
            (writeItem (WOracle.ok) (cwInterf 0 cwS) 0 (readSlot cwS 0)
              (Item.new kDoo [120])).state)) ∧
      ((readSlot cwS2 0).isEmpty = false) ∧
      ((readSlot cwS2 0).isKey kDoo = false) ∧
      ((readSlot cwS2 0).getNext = none) ∧
      ((writeNewItemToHeap (HOracle.ok) (cwInterf 0 cwS2) 0 (readSlot cwS2 0)
        (Item.new kDoo vDah)).result = .ok false) ∧
      (insertGo cwInterf (fun _ => WOracle.ok) (fun _ => HOracle.ok) kDoo
          (Item.new kDoo vDah) 3 0 0 cwS2 =
        OpOut.push 0 (some (.ok false))
          (insertGo cwInterf (fun _ => WOracle.ok) (fun _ => HOracle.ok) kDoo
            (Item.new kDoo vDah) 2 1 0
            (writeNewItemToHeap (HOracle.ok) (cwInterf 0 cwS2) 0 (readSlot cwS2 0)
              (Item.new kDoo vDah)).state)) ∧
      (removeGo cwInterf (fun _ => WOracle.ok) kDoo (Item.new kDoo [120]) 3 0 0 cwS =
        OpOut.push 0 (some (.ok false))
          (removeGo cwInterf (fun _ => WOracle.ok) kDoo (Item.new kDoo [120]) 2 1 0
            (writeItem (WOracle.ok) (cwInterf 0 cwS) 0 (readSlot cwS 0)
              (Item.new kDoo [120])).state)) :=
  ⟨by decide, by decide,
   (conflict_retries_at_current_slot cwInterf2 (fun _ => WOracle.ok)
     (fun _ => HOracle.ok) kFoo (Item.new kFoo vBar) 2 0 0 (initFileOnce 1 none)).1
     (by decide) (by decide),
   by decide, by decide, by decide,
   (conflict_retries_at_current_slot cwInterf (fun _ => WOracle.ok)
     (fun _ => HOracle.ok) kDoo (Item.new kDoo [120]) 2 0 0 cwS).2.1
     (by decide) (by decide) (by decide),
   by decide, by decide, by decide, by decide,
   (conflict_retries_at_current_slot cwInterf (fun _ => WOracle.ok)
     (fun _ => HOracle.ok) kDoo (Item.new kDoo vDah) 2 0 0 cwS2).2.2.1
     (by decide) (by decide) (by decide) (by decide),
   (conflict_retries_at_current_slot cwInterf (fun _ => WOracle.ok)
     (fun _ => HOracle.ok) kDoo (Item.new kDoo [120]) 2 0 0 cwS).2.2.2
     (by decide) (by decide)⟩

set_option maxRecDepth 100000 in
/-- **C3**: in `c3Run`, `insert("foo", "bar")` on a fresh one-bucket
file suffers an IO failure of the write protocol's pre-write seek; the
protocol returns `Err(IO)` (visible in the write trace), yet the insert
call returns `Ok(())` — the `if let Ok(ok)` pattern in the source
discards the error, contradicting the claim that IO failures are never
silently swallowed. -/
theorem write_error_swallowed_run :
    c3Run.result = .ok () ∧ c3Run.wtrace = [.error .io] := by
  refine ⟨by decide, by decide⟩

/-- Structural form of the C3 divergence: whenever the record read at
`pos` dispatches `insert` (empty slot) or `remove` (matching key) into
the write protocol and that protocol call returns an IO error, the
operation returns `Ok(())`, recording the error only in the write
trace. -/
theorem write_error_swallowed_general (interf : Interf) (ow : Nat → WOracle)
    (oh : Nat → HOracle) (key : List Byte) (ni : Item) (fuel k pos : Nat)
    (s : FileState) (e : KvError) :
    ((readSlot s pos).isEmpty = true →
      (writeItem (ow k) (interf k s) pos (readSlot s pos) ni).result = .error e →
      insertGo interf ow oh key ni (fuel + 1) k pos s =
        ⟨.ok (), (writeItem (ow k) (interf k s) pos (readSlot s pos) ni).state,
          [pos], [.error e]⟩) ∧
    ((readSlot s pos).isKey key = true →
      (writeItem (ow k) (interf k s) pos (readSlot s pos) ni).result = .error e →
      removeGo interf ow key ni (fuel + 1) k pos s =
        ⟨.ok (), (writeItem (ow k) (interf k s) pos (readSlot s pos) ni).state,
          [pos], [.error e]⟩) :=
  ⟨fun h1 h2 => insertGo_swallows_error interf ow oh key ni fuel k pos s e h1 h2,
   fun h1 h2 => removeGo_swallows_error interf ow key ni fuel k pos s e h1 h2⟩

set_option maxRecDepth 100000 in
/-- Witness for `write_error_swallowed_general`: a fresh one-bucket file
(empty home slot) for the insert part, and a one-bucket file holding
`"foo"` for the remove part, each with a failing pre-write seek. -/
theorem write_error_swallowed_general_witness :
    ((readSlot (initFileOnce 1 none) 0).isEmpty = true) ∧
      ((writeItem (⟨true, false, true⟩ : WOracle) (noInterf 0 (initFileOnce 1 none)) 0
        (readSlot (initFileOnce 1 none) 0) (Item.new kFoo vBar)).result = .error .io) ∧
      (insertGo noInterf (fun _ => (⟨true, false, true⟩ : WOracle)) (fun _ => HOracle.ok)
          kFoo (Item.new kFoo vBar) 3 0 0 (initFileOnce 1 none) =
        ⟨.ok (), (writeItem (⟨true, false, true⟩ : WOracle)
            (noInterf 0 (initFileOnce 1 none)) 0
            (readSlot (initFileOnce 1 none) 0) (Item.new kFoo vBar)).state,
          [0], [.error .io]⟩) ∧
      ((readSlot cwS2 0).isKey kFoo = true) ∧
      (removeGo noInterf (fun _ => (⟨true, false, true⟩ : WOracle)) kFoo Item.empty
          3 0 0 cwS2 =
        ⟨.ok (), (writeItem (⟨true, false, true⟩ : WOracle) (noInterf 0 cwS2) 0
            (readSlot cwS2 0) Item.empty).state,
          [0], [.error .io]⟩) :=
  ⟨by decide, by decide,
   (write_error_swallowed_general noInterf (fun _ => (⟨true, false, true⟩ : WOracle))
     (fun _ => HOracle.ok) kFoo (Item.new kFoo vBar) 2 0 0 (initFileOnce 1 none) .io).1
     (by decide) (by decide),
   by decide,
   (write_error_swallowed_general noInterf (fun _ => (⟨true, false, true⟩ : WOracle))
     (fun _ => HOracle.ok) kFoo Item.empty 2 0 0 cwS2 .io).2
     (by decide) (by decide)⟩

set_option maxRecDepth 100000 in
/-- **C4** counterexample: in `c4Run` an insert's heap-append attempt
writes the new record at slot 1 and then observes a conflict, so
`heap_size` stays 0; the retry commits in-place at slot 0 and the call
completes with `Ok(())` — but the file now holds 2 records while the
header accounts for `key_count + heap_size = 1`: the file size is
`16 + 2·1284 = 2584`, not `16 + (key_count + heap_size)·1284 = 1300`. -/
theorem file_size_invariant_counterexample :
    c4Run.result = .ok () ∧ c4Run.wtrace = [.ok false, .ok true] ∧
      fileSize c4Run.state ≠
        HEADER_SIZE + (c4Run.state.header.keyCount +
          c4Run.state.header.heapSize) * ITEM_SIZE := by
  refine ⟨by decide, by decide, by decide⟩

/-- **C4 (amended)**: the size equation
`file size = 16 + (key_count + heap_size) · 1284` holds after file
initialisation, is preserved by every `write_item` call at an in-range
position (any outcome), and by every **committed** heap append; but a
heap-append attempt that reports Conflict leaves the file one record
larger than the header accounts for
(`16 + (key_count + heap_size + 1) · 1284`), so a completed call whose
heap-append attempt conflicted and which then committed elsewhere can
leave the equation violated (see `file_size_invariant_counterexample`). -/
theorem file_size_invariant_amended :
    (∀ kc, fileSize (initFileOnce kc none) =
      HEADER_SIZE + ((initFileOnce kc none).header.keyCount +
        (initFileOnce kc none).header.heapSize) * ITEM_SIZE) ∧
    (∀ (o : WOracle) (s : FileState) (pos : Nat) (pi ni : Item),
      pos < s.slots.length → SizeInv s →
      fileSize (writeItem o s pos pi ni).state =
        HEADER_SIZE + ((writeItem o s pos pi ni).state.header.keyCount +
          (writeItem o s pos pi ni).state.header.heapSize) * ITEM_SIZE) ∧
    (∀ (o : HOracle) (s : FileState) (pp : Nat) (pi ni : Item),
      SizeInv s → pp < s.slots.length →
      (writeNewItemToHeap o s pp pi ni).result = .ok true →
      fileSize (writeNewItemToHeap o s pp pi ni).state =
        HEADER_SIZE + ((writeNewItemToHeap o s pp pi ni).state.header.keyCount +
          (writeNewItemToHeap o s pp pi ni).state.header.heapSize) * ITEM_SIZE) ∧
    (∀ (o : HOracle) (s : FileState) (pp : Nat) (pi ni : Item),
      SizeInv s →
      (writeNewItemToHeap o s pp pi ni).result = .ok false →
      fileSize (writeNewItemToHeap o s pp pi ni).state =
        HEADER_SIZE + (s.header.keyCount + s.header.heapSize + 1) * ITEM_SIZE) := by
  refine ⟨?_, ?_, ?_, ?_⟩
  · intro kc
    simp [initFileOnce, fileSize, HEADER_SIZE, ITEM_SIZE]
    omega
  · intro o s pos pi ni hpos hinv
    have hf := writeItem_frame o s pos pi ni hpos
    unfold SizeInv at hinv
    unfold fileSize HEADER_SIZE ITEM_SIZE
    rw [hf.1, hf.2]
    omega
  · intro o s pp pi ni hinv hpp hres
    have hi := writeNewItemToHeap_commit_inv o s pp pi ni hinv hpp hres
    unfold SizeInv at hi
    unfold fileSize HEADER_SIZE ITEM_SIZE
    omega
  · intro o s pp pi ni hinv hres
    have hc := writeNewItemToHeap_conflict_size o s pp pi ni hinv hres
    unfold fileSize HEADER_SIZE ITEM_SIZE
    rw [hc.1]
    ring

set_option maxRecDepth 100000 in
/-- Witness for `file_size_invariant_amended` on a one-bucket file
holding `("foo","bar")`: an in-place write, a committed heap append,
and a conflicted heap append. -/
theorem file_size_invariant_amended_witness :
    (0 < cwS2.slots.length ∧ SizeInv cwS2 ∧
      fileSize (writeItem WOracle.ok cwS2 0 ⟨kFoo, vBar, 0⟩ (Item.new kFoo vBaz)).state =
        HEADER_SIZE + ((writeItem WOracle.ok cwS2 0 ⟨kFoo, vBar, 0⟩
            (Item.new kFoo vBaz)).state.header.keyCount +
          (writeItem WOracle.ok cwS2 0 ⟨kFoo, vBar, 0⟩
            (Item.new kFoo vBaz)).state.header.heapSize) * ITEM_SIZE) ∧
    ((writeNewItemToHeap HOracle.ok cwS2 0 ⟨kFoo, vBar, 0⟩
        (Item.new kDoo vDah)).result = .ok true ∧
      fileSize (writeNewItemToHeap HOracle.ok cwS2 0 ⟨kFoo, vBar, 0⟩
          (Item.new kDoo vDah)).state =
        HEADER_SIZE + ((writeNewItemToHeap HOracle.ok cwS2 0 ⟨kFoo, vBar, 0⟩
            (Item.new kDoo vDah)).state.header.keyCount +
          (writeNewItemToHeap HOracle.ok cwS2 0 ⟨kFoo, vBar, 0⟩
            (Item.new kDoo vDah)).state.header.heapSize) * ITEM_SIZE) ∧
    ((writeNewItemToHeap HOracle.ok cwS2 0 ⟨kFoo, [9], 0⟩
        (Item.new kDoo vDah)).result = .ok false ∧
      fileSize (writeNewItemToHeap HOracle.ok cwS2 0 ⟨kFoo, [9], 0⟩
          (Item.new kDoo vDah)).state =
        HEADER_SIZE + (cwS2.header.keyCount + cwS2.header.heapSize + 1) * ITEM_SIZE) :=
  ⟨⟨by decide, by decide,
    file_size_invariant_amended.2.1 WOracle.ok cwS2 0 ⟨kFoo, vBar, 0⟩
      (Item.new kFoo vBaz) (by decide) (by decide)⟩,
   ⟨by decide,
    file_size_invariant_amended.2.2.1 HOracle.ok cwS2 0 ⟨kFoo, vBar, 0⟩
      (Item.new kDoo vDah) (by decide) (by decide) (by decide)⟩,
   ⟨by decide,
    file_size_invariant_amended.2.2.2 HOracle.ok cwS2 0 ⟨kFoo, [9], 0⟩
      (Item.new kDoo vDah) (by decide) (by decide)⟩⟩

set_option maxRecDepth 100000 in
/-- **C10** counterexample: a heap-append attempt whose unconditional
write of the new record fails — an IO failure **before** the
verification read — returns `Err(IO)` **with the lock released**
(`lockReleased = true`, `verified = false`), contradicting the claim
that the lock is released only on the Conflict, Commit, and
post-verification write-failure exit paths. -/
theorem lock_release_counterexample :
    c10Out.result = .error .io ∧ c10Out.lockReleased = true ∧
      c10Out.verified = false := by
  refine ⟨by decide, by decide, by decide⟩

/-- **C10 (amended)**: after the exclusive lock is acquired, a failing
verification read makes `write_item` return the IO error without
releasing the lock, and a failing header read does the same in
`write_new_item_to_heap`; precisely, `write_item` leaks the lock exactly
when its verification read fails, while the heap variant leaks it
exactly when its header read fails or its verification read fails (the
latter reached only after the new record's seek and write succeeded) —
every other exit, including the heap variant's **pre-verification**
seek/write failures, releases the lock. -/
theorem lock_release_characterization :
    (∀ (o : WOracle) (s : FileState) (pos : Nat) (pi ni : Item),
      o.verifyReadOk = false →
      writeItem o s pos pi ni = ⟨.error .io, s, false, false⟩) ∧
    (∀ (o : HOracle) (s : FileState) (pp : Nat) (pi ni : Item),
      o.headerReadOk = false →
      writeNewItemToHeap o s pp pi ni = ⟨.error .io, s, false, false⟩) ∧
    (∀ (o : WOracle) (s : FileState) (pos : Nat) (pi ni : Item),
      (writeItem o s pos pi ni).lockReleased = false ↔ o.verifyReadOk = false) ∧
    (∀ (o : HOracle) (s : FileState) (pp : Nat) (pi ni : Item),
      (writeNewItemToHeap o s pp pi ni).lockReleased = false ↔
        (o.headerReadOk = false ∨
          (o.seekNewOk = true ∧ o.writeNewOk = true ∧ o.verifyReadOk = false))) :=
  ⟨fun o s pos pi ni h => writeItem_verifyReadFail o s pos pi ni h,
   fun o s pp pi ni h => writeNewItemToHeap_headerReadFail o s pp pi ni h,
   fun o s pos pi ni => writeItem_lockReleased o s pos pi ni,
   fun o s pp pi ni => writeNewItemToHeap_lockReleased o s pp pi ni⟩

/-- Witness for `lock_release_characterization`: a failing verification
read and a failing header read on the `cwS2` file. -/
theorem lock_release_characterization_witness :
    ((⟨false, true, true⟩ : WOracle).verifyReadOk = false ∧
      writeItem ⟨false, true, true⟩ cwS2 0 ⟨kFoo, vBar, 0⟩ (Item.new kFoo vBaz) =
        ⟨.error .io, cwS2, false, false⟩) ∧
    ((⟨false, true, true, true, true, true, true⟩ : HOracle).headerReadOk = false ∧
      writeNewItemToHeap ⟨false, true, true, true, true, true, true⟩ cwS2 0
          ⟨kFoo, vBar, 0⟩ (Item.new kDoo vDah) =
        ⟨.error .io, cwS2, false, false⟩) :=
  ⟨⟨rfl, lock_release_characterization.1 ⟨false, true, true⟩ cwS2 0
      ⟨kFoo, vBar, 0⟩ (Item.new kFoo vBaz) rfl⟩,
   ⟨rfl, lock_release_characterization.2.1 ⟨false, true, true, true, true, true, true⟩
      cwS2 0 ⟨kFoo, vBar, 0⟩ (Item.new kDoo vDah) rfl⟩⟩

end Kvlite
